import Mathlib

/-!
Verification of the yagm version-control session engine (`src/main/gitService.ts`
and the renderer components that wrap it).  The TypeScript source is embedded
shallowly: each service method becomes a Lean function over explicit state,
the `simple-git` backend becomes an oracle argument, and JavaScript object
aliasing in the diff parser is modelled by an explicit alias counter.
-/

namespace Yagm

/-! ## Data model (src/main/types.ts) -/

/-- `GitStatus` from types.ts. -/
structure GitStatus where
  staged : List String
  unstaged : List String
  untracked : List String
deriving DecidableEq

/-- `DiffFile` from types.ts. -/
structure DiffFile where
  filename : String
  additions : Nat
  deletions : Nat
  patch : String
deriving DecidableEq

/-- `CommitDiff` from types.ts. -/
structure CommitDiff where
  files : List DiffFile
  totalAdditions : Nat
  totalDeletions : Nat
deriving DecidableEq

/-! ## JavaScript string primitives

Embedded over `List Char` so that every definition evaluates by kernel
reduction on concrete inputs. -/

/-- JS `s.startsWith(p)`. -/
def jsStartsWith (s p : String) : Bool :=
  p.toList.isPrefixOf s.toList

/-- JS `s.split('\n')` on the character list. -/
def splitNlChars : List Char → List (List Char)
  | [] => [[]]
  | c :: rest =>
    match splitNlChars rest with
    | [] => [[]]
    | h :: t => if c = '\n' then [] :: h :: t else (c :: h) :: t

/-- JS `s.split('\n')`. -/
def splitNl (s : String) : List String :=
  (splitNlChars s.toList).map List.asString

/-- JS `s.trim()`: strip whitespace from both ends. -/
def jsTrim (s : String) : String :=
  (((s.toList.dropWhile Char.isWhitespace).reverse.dropWhile Char.isWhitespace).reverse).asString

/-! ## The header regex of `parseDiff`

`line.match(/diff --git a\/(.+) b\/(.+)/)`: an unanchored search, leftmost
start position, with a greedy first group.  A candidate start is any
occurrence of the literal `diff --git a/`; at a start, the greedy `(.+)`
forces the split at the last ` b/` occurrence that leaves both groups
non-empty.  `matchDiffGit` returns the two capture groups on success. -/

/-- Indices at which `pat` occurs in `s`. -/
def occIdxs (pat s : List Char) : List Nat :=
  (List.range (s.length + 1)).filter (fun i => pat.isPrefixOf (s.drop i))

/-- Greedy split of the regex tail `(.+) b/(.+)`: the last occurrence of
` b/` with a non-empty group on each side. -/
def greedySplitB (s : List Char) : Option (List Char × List Char) :=
  let cand := (occIdxs [' ', 'b', '/'] s).filter (fun i => decide (1 ≤ i) && decide (i + 3 < s.length))
  match cand.getLast? with
  | some i => some (s.take i, s.drop (i + 3))
  | none => none

/-- Try candidate start positions left to right (regex backtracking order). -/
def firstHeaderMatch (s : List Char) : List Nat → Option (List Char × List Char)
  | [] => none
  | i :: rest =>
    match greedySplitB (s.drop (i + 13)) with
    | some r => some r
    | none => firstHeaderMatch s rest

/-- The JS `line.match(/diff --git a\/(.+) b\/(.+)/)`, returning the two
capture groups. -/
def matchDiffGit (line : String) : Option (String × String) :=
  let s := line.toList
  match firstHeaderMatch s (occIdxs "diff --git a/".toList s) with
  | some (g1, g2) => some (g1.asString, g2.asString)
  | none => none

/-! ## `GitService.parseDiff`

The JS loop mutates `currentFile` in place and pushes the *reference* into
`files`, so a push followed by further mutation retroactively changes the
pushed element.  Pushes of the current object are always a contiguous tail
of `files`, so the pure model keeps finalized files in `files` and counts
already-pushed aliases of the live object in `aliasCount`; the aliases are
materialized (at the object's final value) when the object is replaced or
at end of input. -/

structure ParseState where
  files : List DiffFile
  totalAdditions : Nat
  totalDeletions : Nat
  cur : Option DiffFile
  aliasCount : Nat
  inPatch : Bool
  patchLines : List String
deriving DecidableEq

def initParseState : ParseState :=
  ⟨[], 0, 0, none, 0, false, []⟩

/-- One iteration of the `for (const line of lines)` loop of `parseDiff`. -/
def parseStep (st : ParseState) (line : String) : ParseState :=
  if jsStartsWith line "diff --git" then
    match st.cur with
    | some f =>
      let f2 := { f with patch := String.intercalate "\n" st.patchLines }
      match matchDiffGit line with
      | some g =>
        { files := st.files ++ List.replicate (st.aliasCount + 1) f2,
          totalAdditions := st.totalAdditions,
          totalDeletions := st.totalDeletions,
          cur := some ⟨g.2, 0, 0, ""⟩,
          aliasCount := 0,
          inPatch := false,
          patchLines := [] }
      | none =>
        { st with cur := some f2, aliasCount := st.aliasCount + 1 }
    | none =>
      match matchDiffGit line with
      | some g =>
        { st with cur := some ⟨g.2, 0, 0, ""⟩, inPatch := false, patchLines := [] }
      | none => st
  else
    match st.cur with
    | none => st
    | some f =>
      if jsStartsWith line "@@" then
        { st with inPatch := true, patchLines := st.patchLines ++ [line] }
      else if st.inPatch then
        let st1 := { st with patchLines := st.patchLines ++ [line] }
        if jsStartsWith line "+" && !(jsStartsWith line "+++") then
          { st1 with cur := some { f with additions := f.additions + 1 },
                     totalAdditions := st.totalAdditions + 1 }
        else if jsStartsWith line "-" && !(jsStartsWith line "---") then
          { st1 with cur := some { f with deletions := f.deletions + 1 },
                     totalDeletions := st.totalDeletions + 1 }
        else st1
      else st

/-- The trailing "save last file" block of `parseDiff`. -/
def parseFinal (st : ParseState) : CommitDiff :=
  match st.cur with
  | some f =>
    let f2 := { f with patch := String.intercalate "\n" st.patchLines }
    ⟨st.files ++ List.replicate (st.aliasCount + 1) f2, st.totalAdditions, st.totalDeletions⟩
  | none => ⟨st.files, st.totalAdditions, st.totalDeletions⟩

/-- `GitService.parseDiff` (gitService.ts lines 275-332). -/
def parseDiff (diffOutput : String) : CommitDiff :=
  parseFinal ((splitNl diffOutput).foldl parseStep initParseState)

/-! ## `GitService.getStatus`

The backend is `simple-git`'s `status()`; its result is modelled by the
fields the method reads.  A session is `Option`: `none` when `this.git` is
null.  The backend call itself can throw, hence the inner `Option`. -/

/-- The fields of simple-git's `StatusResult` that `getStatus` reads. -/
structure StatusResult where
  staged : List String
  modified : List String
  deleted : List String
  not_added : List String
deriving DecidableEq

/-- `GitService.getStatus` (gitService.ts lines 62-79).  The argument is
`none` with no open session; `some none` when the backend `status()` call
throws; `some (some st)` when it returns `st`. -/
def getStatus (git : Option (Option StatusResult)) : GitStatus :=
  match git with
  | none => ⟨[], [], []⟩
  | some none => ⟨[], [], []⟩
  | some (some st) =>
    ⟨st.staged,
     (st.modified ++ st.deleted).filter (fun file => !(st.staged.contains file)),
     st.not_added⟩

/-! ## `GitService.commit` and the renderer's `handleCommit` -/

/-- `GitService.commit` (gitService.ts lines 101-113).  `backendCommit m`
is the verdict of `this.git.commit(m)` (`false` means it threw).  Returns
the method's result and whether the backend was invoked. -/
def commit (gitOpen : Bool) (backendCommit : String → Bool) (message : String) :
    Bool × Bool :=
  if gitOpen = false then (false, false)
  else (backendCommit message, true)

/-- `handleCommit` (MainContent.tsx lines 74-83): blank-after-trim messages
cause an early `return` before the engine is called.  Returns `true` when
the engine's commit API was invoked. -/
def handleCommit (commitMessage : String) (apiCommit : String → Bool) : Bool :=
  if jsTrim commitMessage = "" then false
  else
    let _ := apiCommit commitMessage
    true

/-! ## `GitService.createBranch`

The method's single backend call is simple-git's `checkoutBranch(name,
'HEAD')`. -/

/-- The branch state of the underlying repository. -/
structure RepoState where
  current : String
  branches : List String
deriving DecidableEq

/-- Modelled from the spec: the backend capability invoked by
`createBranch`.  simple-git's `checkoutBranch(name, startPoint)` (the
library is not part of this repository) runs `git checkout -b name
startPoint`: it fails if the branch already exists, and otherwise creates
the branch and switches to it. -/
def backendCheckoutBranch (st : RepoState) (name : String) (startPoint : String) :
    Option RepoState :=
  let _ := startPoint
  if st.branches.contains name then none
  else some ⟨name, st.branches ++ [name]⟩

/-- `GitService.createBranch` (gitService.ts lines 135-147): returns the
boolean result and the repository state afterwards. -/
def createBranch (git : Option RepoState) (name : String) : Bool × Option RepoState :=
  match git with
  | none => (false, none)
  | some st =>
    match backendCheckoutBranch st name "HEAD" with
    | some st2 => (true, some st2)
    | none => (false, some st)

/-! ## `GitService.cherryPickCommits`

The backend is abstracted as an oracle: `currentBranch` is what
`getCurrentBranch()` returns, `checkoutOk` the verdict of
`this.git.checkout`, `apply` the outcome of one `cherry-pick` raw call
(on failure it carries the `GitStatus` that the subsequent `getStatus()`
reports), and `commitOk` the verdict of the squash `commit` call. -/

/-- Outcome of `git.raw(['cherry-pick', ...])` for one hash. -/
inductive ApplyOutcome where
  | ok
  | err (statusAfter : GitStatus)
deriving DecidableEq

def ApplyOutcome.isOk : ApplyOutcome → Bool
  | .ok => true
  | .err _ => false

structure CherryEnv where
  currentBranch : String
  checkoutOk : String → Bool
  apply : String → ApplyOutcome
  commitOk : Bool

/-- `CherryPickOptions` from types.ts (the fields the method reads). -/
structure CherryPickOpts where
  noCommit : Bool
  squash : Bool
deriving DecidableEq

/-- `CherryPickResult` from types.ts (the fields the method writes;
`errorType` is in the interface but `cherryPickCommits` never assigns it). -/
structure CPResult where
  success : Bool
  conflicts : List String
  appliedCommits : List String
  errorType : Option String
deriving DecidableEq

/-- Result of the `for (const commitHash of commitHashes)` loop
(gitService.ts lines 363-386): commits applied, conflicts found, the
`result.success` value, whether an uncaught error escaped to the outer
catch, and the hashes for which a cherry-pick call was issued. -/
structure LoopOut where
  applied : List String
  conflicts : List String
  success : Bool
  threw : Bool
  attempted : List String
deriving DecidableEq

def applyLoop (apply : String → ApplyOutcome) : List String → LoopOut
  | [] => ⟨[], [], true, false, []⟩
  | h :: rest =>
    match apply h with
    | .ok =>
      let r := applyLoop apply rest
      ⟨h :: r.applied, r.conflicts, r.success, r.threw, h :: r.attempted⟩
    | .err st =>
      if st.unstaged.isEmpty && st.staged.isEmpty then
        ⟨[], [], true, true, [h]⟩
      else
        ⟨[], st.unstaged ++ st.staged, false, false, [h]⟩

/-- `GitService.cherryPickCommits` (gitService.ts lines 337-408).  Returns
the `CherryPickResult`, whether the restore checkout of the original
branch was attempted, and the list of hashes a cherry-pick call was issued
for. -/
def cherryPickCommits (gitOpen : Bool) (env : CherryEnv) (commitHashes : List String)
    (targetBranch : String) (opts : CherryPickOpts) :
    CPResult × Bool × List String :=
  if gitOpen = false then (⟨false, [], [], none⟩, false, [])
  else
    let origin := env.currentBranch
    let res :=
      if origin ≠ targetBranch ∧ env.checkoutOk targetBranch = false then
        -- the checkout inside the try block threw; the catch sets success := false
        (⟨false, [], [], none⟩, ([] : List String))
      else
        let r := applyLoop env.apply commitHashes
        if r.threw then (⟨false, r.conflicts, r.applied, none⟩, r.attempted)
        else if opts.squash = true ∧ 1 < commitHashes.length ∧ r.success = true ∧ opts.noCommit = false then
          if env.commitOk then (⟨r.success, r.conflicts, r.applied, none⟩, r.attempted)
          else (⟨false, r.conflicts, r.applied, none⟩, r.attempted)
        else (⟨r.success, r.conflicts, r.applied, none⟩, r.attempted)
    let restoreAttempted : Bool := origin ≠ targetBranch
    (res.1, restoreAttempted, res.2)

/-! ## The renderer's `handleCherryPick` (CherryPickDialog.tsx lines 63-123)

A module-level boolean `isCherryPickingInProgress` guards the whole
operation.  The model takes the flag's value at entry and returns the
result the dialog records (`none` when the invocation returned without
doing anything), whether the engine was called, and the flag's value when
the invocation returns. -/

def handleCherryPick (isCherryPickingInProgress : Bool) (targetBranch : String)
    (selectedHashes : List String)
    (onCherryPick : List String → String → Option CPResult) :
    Option CPResult × Bool × Bool :=
  if targetBranch = "" ∨ selectedHashes = [] then
    (none, false, isCherryPickingInProgress)
  else if isCherryPickingInProgress = true then
    -- console.warn and plain return: the request is dropped silently
    (none, false, isCherryPickingInProgress)
  else
    match onCherryPick selectedHashes targetBranch with
    | some r => (some r, true, false)
    | none => (some ⟨false, [], [], none⟩, true, false)

/-! ## `GitService.scanDirectoryForRepos`

The filesystem is a finite tree; `stat` failures are the `denied`
constructor.  Paths are segment lists (`path.join` is list append);
`path.basename` is the last segment.  The branch oracle models the
temporary simple-git handle: `none` when reading the current branch
throws. -/

inductive FSEntry where
  | file
  | denied
  | dir (entries : List (String × FSEntry))

/-- `Repository` from types.ts, with the path kept as segments. -/
structure Repo where
  path : List String
  name : String
  currentBranch : Option String
deriving DecidableEq

/-- `path.basename`. -/
def basename (p : List String) : String := p.getLastD ""

/-- `GitService.scanDirectoryForRepos` (gitService.ts lines 494-546).
`items.slice(0, 10)` with the hidden-directory `continue` inside the loop
is rendered by mapping over `entries.take 10`. -/
def scanDirectoryForRepos (branch : List String → Option String)
    (dirPath : List String) : FSEntry → List Repo
  | .file => []
  | .denied => []
  | .dir entries =>
    let items := entries.map (fun e => e.1)
    let here : List Repo :=
      if items.contains ".git" then
        match branch dirPath with
        | some b => [⟨dirPath, basename dirPath, some b⟩]
        | none => []
        -- a failed branch read hits the catch: the repository is skipped
      else []
    here ++ ((entries.take 10).attach.map (fun e =>
      let nm := e.1.1
      if jsStartsWith nm "." then []
      else scanDirectoryForRepos branch (dirPath ++ [nm]) e.1.2)).flatten
termination_by e => sizeOf e
decreasing_by
  have h1 : e.1 ∈ entries := List.take_subset 10 entries e.2
  have h2 : sizeOf e.1 < sizeOf entries := List.sizeOf_lt_of_mem h1
  cases e with
  | mk v hv => cases v with
    | mk nm sub => simp_all; omega

/-! ## Theorems -/

/-- C8: `getStatus()` with no open session returns the all-empty status
rather than failing, and in every returned status no file appears in both
the staged and the unstaged list. -/
theorem c8_getStatus_empty_and_disjoint :
    getStatus none = ⟨[], [], []⟩ ∧
    ∀ (git : Option (Option StatusResult)) (f : String),
      f ∈ (getStatus git).staged → f ∉ (getStatus git).unstaged := by
  refine ⟨rfl, ?_⟩
  intro git f hf hmem
  match git with
  | none => simp [getStatus] at hf
  | some none => simp [getStatus] at hf
  | some (some st) =>
    simp only [getStatus, List.mem_filter] at hf hmem
    exact absurd hf (by simpa using hmem.2)

theorem c8_witness :
    getStatus none = ⟨[], [], []⟩ ∧
    ("a" : String) ∉ (getStatus (some (some ⟨["a"], ["a", "b"], [], []⟩))).unstaged :=
  ⟨c8_getStatus_empty_and_disjoint.1,
   c8_getStatus_empty_and_disjoint.2 (some (some ⟨["a"], ["a", "b"], [], []⟩)) "a"
     (by simp [getStatus])⟩

/-- C10: when the backend status query throws with an open session,
`getStatus()` returns the same all-empty status as a clean repository or a
closed session, so the caller cannot distinguish a status-read failure
from a clean working tree. -/
theorem c10_status_indistinguishable (st : StatusResult)
    (h1 : st.staged = []) (h2 : st.modified = []) (h3 : st.deleted = [])
    (h4 : st.not_added = []) :
    getStatus (some none) = getStatus none ∧
    getStatus (some none) = getStatus (some (some st)) := by
  refine ⟨rfl, ?_⟩
  simp [getStatus, h1, h2, h3, h4]

theorem c10_witness :
    getStatus (some none) = getStatus none ∧
    getStatus (some none) = getStatus (some (some ⟨[], [], [], []⟩)) :=
  c10_status_indistinguishable ⟨[], [], [], []⟩ rfl rfl rfl rfl

/-- C9: a successful `createBranch(name)` with an open session leaves the
newly created branch checked out: the operation is create-and-switch
(`checkoutBranch(name, 'HEAD')`, i.e. `git checkout -b`), not create-only. -/
theorem c9_createBranch_switches (st : RepoState) (name : String)
    (hsucc : (createBranch (some st) name).1 = true) :
    ∃ st2, (createBranch (some st) name).2 = some st2 ∧
      st2.current = name ∧ name ∈ st2.branches := by
  by_cases h : name ∈ st.branches
  · exfalso
    simp [createBranch, backendCheckoutBranch, h] at hsucc
  · refine ⟨⟨name, st.branches ++ [name]⟩, ?_, rfl, by simp⟩
    simp [createBranch, backendCheckoutBranch, h]

theorem c9_witness :
    ∃ st2, (createBranch (some ⟨"main", ["main"]⟩) "feature").2 = some st2 ∧
      st2.current = "feature" ∧ "feature" ∈ st2.branches :=
  c9_createBranch_switches ⟨"main", ["main"]⟩ "feature" (by decide)

/-- C7 counterexample: the claim says a blank-after-trim message makes the
engine's commit fail with `EmptyMessage` without invoking the backend.
`GitService.commit` has no blank check: with an open session and a message
of spaces it invokes the backend (second component `true`) and even
succeeds when the backend accepts it. -/
theorem c7_counterexample :
    commit true (fun _ => true) "   " = (true, true) := by decide

/-- C7 amended: the blank check lives only in the renderer's
`handleCommit`, which on a blank-after-trim message returns without
invoking the engine and surfaces no error; the engine's `commit` performs
no blank check (with an open session it always invokes the backend and
returns the backend's boolean verdict), and a non-blank message reaches
the engine. -/
theorem c7_blank_message_behavior (bk : String → Bool) (message : String)
    (hblank : jsTrim message = "") :
    handleCommit message bk = false ∧
    commit true bk message = (bk message, true) ∧
    (∀ m2, jsTrim m2 ≠ "" → handleCommit m2 bk = true) := by
  refine ⟨?_, rfl, ?_⟩
  · simp [handleCommit, hblank]
  · intro m2 h2
    simp [handleCommit, h2]

theorem c7_witness :
    handleCommit "   " (fun _ => true) = false ∧
    commit true (fun _ => true) "   " = (true, true) ∧
    (∀ m2, jsTrim m2 ≠ "" → handleCommit m2 (fun _ => true) = true) :=
  c7_blank_message_behavior (fun _ => true) "   " (by decide)

/-- C3 counterexample: the claim says a second invocation while one
cherry-pick is in flight fails with the `OperationInProgress` error rather
than being silently dropped.  With the in-progress flag set,
`handleCherryPick` returns without recording any result at all (no error
value of any kind; the `CherryPickResult.errorType` union has no such
member) and without calling the engine: the request is silently dropped. -/
theorem c3_counterexample :
    (handleCherryPick true "main" ["a1b2c3"]
        (fun _ _ => some ⟨true, [], ["a1b2c3"], none⟩)).1 = none ∧
    (handleCherryPick true "main" ["a1b2c3"]
        (fun _ _ => some ⟨true, [], ["a1b2c3"], none⟩)).2.1 = false := by
  constructor <;> rfl

/-- C3 amended: a second invocation while one cherry-pick is in flight
returns immediately without surfacing any error or result (it is silently
dropped, the only trace being a console warning), performs no backend
call, and leaves the in-flight flag set. -/
theorem c3_second_invocation_silent (targetBranch : String)
    (hashes : List String) (onCP : List String → String → Option CPResult) :
    (handleCherryPick true targetBranch hashes onCP).1 = none ∧
    (handleCherryPick true targetBranch hashes onCP).2.1 = false ∧
    (handleCherryPick true targetBranch hashes onCP).2.2 = true := by
  unfold handleCherryPick
  split
  · exact ⟨rfl, rfl, rfl⟩
  · simp

/-! ### C2/C6: the diff parser -/

/-- A line is a well-formed file header if, when it starts with
`diff --git`, the header regex matches it. -/
def WfLine (line : String) : Prop :=
  jsStartsWith line "diff --git" = true → (matchDiffGit line).isSome = true

instance (line : String) : Decidable (WfLine line) := by
  unfold WfLine; infer_instance

/-- The running-totals invariant of the parser loop: no pending aliases of
the current file, and each running total equals the finalized files' sum
plus the current file's count. -/
def TotalsInv (st : ParseState) : Prop :=
  st.aliasCount = 0 ∧
  st.totalAdditions =
    (st.files.map (fun f => f.additions)).sum + st.cur.elim 0 (fun f => f.additions) ∧
  st.totalDeletions =
    (st.files.map (fun f => f.deletions)).sum + st.cur.elim 0 (fun f => f.deletions)

/-- Every loop step leaves at least one of the two running totals
unchanged: no line is counted both as an addition and as a deletion. -/
theorem parseStep_no_double (st : ParseState) (line : String) :
    (parseStep st line).totalAdditions = st.totalAdditions ∨
    (parseStep st line).totalDeletions = st.totalDeletions := by
  unfold parseStep
  split
  · split
    · split
      · left; rfl
      · left; rfl
    · split
      · left; rfl
      · left; rfl
  · split
    · left; rfl
    · split
      · left; rfl
      · split
        · split
          · right; rfl
          · split
            · left; rfl
            · left; rfl
        · left; rfl

theorem parseStep_totalsInv (st : ParseState) (line : String)
    (hwf : WfLine line) (hinv : TotalsInv st) : TotalsInv (parseStep st line) := by
  obtain ⟨h0, ha, hd⟩ := hinv
  by_cases hdg : jsStartsWith line "diff --git" = true
  · have hm : (matchDiffGit line).isSome = true := hwf hdg
    cases hc : st.cur with
    | some f =>
      cases hmg : matchDiffGit line with
      | some g =>
        refine ⟨?_, ?_, ?_⟩ <;>
          simp_all [parseStep, List.map_append, List.sum_append]
      | none => rw [hmg] at hm; simp at hm
    | none =>
      cases hmg : matchDiffGit line with
      | some g => refine ⟨?_, ?_, ?_⟩ <;> simp_all [parseStep]
      | none => rw [hmg] at hm; simp at hm
  · simp only [Bool.not_eq_true] at hdg
    cases hc : st.cur with
    | none => refine ⟨?_, ?_, ?_⟩ <;> simp_all [parseStep]
    | some f =>
      rw [hc] at ha hd
      simp only [Option.elim] at ha hd
      cases hat : jsStartsWith line "@@" with
      | true =>
        refine ⟨?_, ?_, ?_⟩ <;>
          simp [parseStep, hdg, hc, hat, Option.elim] <;> omega
      | false =>
        cases hip : st.inPatch with
        | false =>
          refine ⟨?_, ?_, ?_⟩ <;>
            simp [parseStep, hdg, hc, hat, hip, Option.elim] <;> omega
        | true =>
          cases hplus : (jsStartsWith line "+" && !(jsStartsWith line "+++")) with
          | true =>
            refine ⟨?_, ?_, ?_⟩ <;>
              simp [parseStep, hdg, hc, hat, hip, hplus, Option.elim] <;> omega
          | false =>
            cases hminus : (jsStartsWith line "-" && !(jsStartsWith line "---")) with
            | true =>
              refine ⟨?_, ?_, ?_⟩ <;>
                simp [parseStep, hdg, hc, hat, hip, hplus, hminus, Option.elim] <;> omega
            | false =>
              refine ⟨?_, ?_, ?_⟩ <;>
                simp [parseStep, hdg, hc, hat, hip, hplus, hminus, Option.elim] <;> omega

theorem foldl_parseStep_totalsInv (lines : List String) :
    ∀ st, (∀ l ∈ lines, WfLine l) → TotalsInv st →
      TotalsInv (lines.foldl parseStep st) := by
  induction lines with
  | nil => intro st _ h; exact h
  | cons l rest ih =>
    intro st hwf hinv
    exact ih _ (fun x hx => hwf x (by simp [hx]))
      (parseStep_totalsInv st l (hwf l (by simp)) hinv)

/-- C2 counterexample: the claim quantifies over every input patch string.
On a patch whose second `diff --git` line does not match the header regex,
the already-pushed file object stays current (a JS aliasing effect) and is
pushed a second time at end of input, so the per-file sum double-counts
its additions: the totals are 2 but the sum over `files` is 4.  (Real git
emits such headers for quoted filenames, e.g.
`diff --git "a/x y" "b/x y"`.) -/
theorem c2_counterexample :
    (parseDiff "diff --git a/f b/f\n@@ -1 +1 @@\n+x\ndiff --git zzz\n+y").totalAdditions ≠
      ((parseDiff "diff --git a/f b/f\n@@ -1 +1 @@\n+x\ndiff --git zzz\n+y").files.map
        (fun f => f.additions)).sum := by
  decide

/-- C2 amended: for every input patch string in which each line beginning
with `diff --git` actually matches the `a/<old> b/<new>` header pattern,
`totalAdditions` equals the sum of `additions` over `files` and
`totalDeletions` the sum of `deletions`; and, unconditionally, no single
loop step counts a line as both an addition and a deletion. -/
theorem c2_totals_match_on_wellformed (diffOutput : String)
    (hwf : ∀ l ∈ splitNl diffOutput, WfLine l) :
    (parseDiff diffOutput).totalAdditions =
      ((parseDiff diffOutput).files.map (fun f => f.additions)).sum ∧
    (parseDiff diffOutput).totalDeletions =
      ((parseDiff diffOutput).files.map (fun f => f.deletions)).sum ∧
    ∀ st line, st.totalAdditions < (parseStep st line).totalAdditions →
      (parseStep st line).totalDeletions = st.totalDeletions := by
  have hinv : TotalsInv ((splitNl diffOutput).foldl parseStep initParseState) :=
    foldl_parseStep_totalsInv _ _ hwf ⟨rfl, rfl, rfl⟩
  obtain ⟨h0, ha, hd⟩ := hinv
  refine ⟨?_, ?_, ?_⟩
  · unfold parseDiff parseFinal
    cases hc : ((splitNl diffOutput).foldl parseStep initParseState).cur with
    | none => simp_all
    | some f => simp_all [List.map_append, List.sum_append]
  · unfold parseDiff parseFinal
    cases hc : ((splitNl diffOutput).foldl parseStep initParseState).cur with
    | none => simp_all
    | some f => simp_all [List.map_append, List.sum_append]
  · intro st line hlt
    rcases parseStep_no_double st line with h | h
    · omega
    · exact h

theorem c2_witness :
    (parseDiff "diff --git a/f b/f\n@@ -1,2 +1,2 @@\n+x\n-y\n context").totalAdditions =
      ((parseDiff "diff --git a/f b/f\n@@ -1,2 +1,2 @@\n+x\n-y\n context").files.map
        (fun f => f.additions)).sum ∧
    (parseDiff "diff --git a/f b/f\n@@ -1,2 +1,2 @@\n+x\n-y\n context").totalDeletions =
      ((parseDiff "diff --git a/f b/f\n@@ -1,2 +1,2 @@\n+x\n-y\n context").files.map
        (fun f => f.deletions)).sum :=
  ⟨(c2_totals_match_on_wellformed _ (by decide)).1,
   (c2_totals_match_on_wellformed _ (by decide)).2.1⟩

/-- C6 counterexample: the claim says preamble lines between the
`diff --git` header and the first hunk header are retained verbatim in the
file's patch text.  On a patch with an `index` preamble line, the recorded
patch text is exactly the hunk lines: the preamble line is dropped, not
retained. -/
theorem c6_counterexample :
    ((parseDiff "diff --git a/f b/f\nindex 1..2 100644\n@@ -1 +1 @@\n+x").files.map
      (fun f => f.patch)) = ["@@ -1 +1 @@\n+x"] := by
  decide

/-- C6 amended: the lines between a well-formed `diff --git` header and
the first hunk header are excluded from the addition/deletion counts and
are also excluded from the file's patch text (they change the parse state
in no way at all): after a matched header `inPatch` is false, and while
`inPatch` is false any line that is neither a `diff --git` line nor a hunk
header leaves the state unchanged. -/
theorem c6_preamble_excluded :
    (∀ st line, jsStartsWith line "diff --git" = true →
      (matchDiffGit line).isSome = true → (parseStep st line).inPatch = false) ∧
    (∀ st line, st.inPatch = false →
      jsStartsWith line "diff --git" = false →
      jsStartsWith line "@@" = false →
      parseStep st line = st) := by
  constructor
  · intro st line hdg hm
    cases hc : st.cur with
    | some f =>
      cases hmg : matchDiffGit line with
      | some g => simp [parseStep, hdg, hc, hmg]
      | none => rw [hmg] at hm; simp at hm
    | none =>
      cases hmg : matchDiffGit line with
      | some g => simp [parseStep, hdg, hc, hmg]
      | none => rw [hmg] at hm; simp at hm
  · intro st line hip hdg hat
    cases hc : st.cur with
    | none => simp [parseStep, hdg, hc]
    | some f => simp [parseStep, hdg, hc, hat, hip]

theorem c6_witness :
    parseStep ⟨[], 0, 0, some ⟨"f", 0, 0, ""⟩, 0, false, []⟩ "index 1..2 100644" =
      ⟨[], 0, 0, some ⟨"f", 0, 0, ""⟩, 0, false, []⟩ ∧
    (parseStep initParseState "diff --git a/f b/f").inPatch = false :=
  ⟨c6_preamble_excluded.2 _ _ rfl (by decide) (by decide),
   c6_preamble_excluded.1 _ _ (by decide) (by decide)⟩

/-! ### C1/C4: the cherry-pick orchestrator -/

theorem applyLoop_applied (apply : String → ApplyOutcome) (hs : List String) :
    (applyLoop apply hs).applied = hs.takeWhile (fun h => (apply h).isOk) := by
  induction hs with
  | nil => rfl
  | cons h rest ih =>
    unfold applyLoop
    cases hap : apply h with
    | ok => simp [List.takeWhile_cons, hap, ApplyOutcome.isOk, ih]
    | err st =>
      simp only [List.takeWhile_cons, hap, ApplyOutcome.isOk, Bool.false_eq_true, if_false]
      split <;> rfl

theorem applyLoop_conflict (apply : String → ApplyOutcome)
    (pre : List String) (h : String) (post : List String) (st : GitStatus)
    (hpre : ∀ g ∈ pre, (apply g).isOk = true)
    (hh : apply h = .err st)
    (hcf : (st.unstaged.isEmpty && st.staged.isEmpty) = false) :
    applyLoop apply (pre ++ h :: post) =
      ⟨pre, st.unstaged ++ st.staged, false, false, pre ++ [h]⟩ := by
  induction pre with
  | nil =>
    simp only [List.nil_append, applyLoop, hh, hcf]
    simp
  | cons g gs ih =>
    have hg : (apply g).isOk = true := hpre g (by simp)
    cases hag : apply g with
    | ok =>
      have hrest := ih (fun x hx => hpre x (by simp [hx]))
      rw [List.cons_append]
      unfold applyLoop
      rw [hag, hrest]
      rfl
    | err s2 => rw [hag] at hg; simp [ApplyOutcome.isOk] at hg

/-- C1: with an open session (and the target-branch checkout not failing),
`appliedCommits` is exactly the longest prefix of the requested hashes
whose applies succeeded, in request order; and when a failing apply leaves
staged or unstaged files, `success` is false, `conflicts` lists exactly
those working-tree paths (unstaged then staged), and no hash after the
failing one is attempted. -/
theorem c1_cherry_pick_prefix_and_conflicts (env : CherryEnv)
    (commitHashes : List String) (targetBranch : String) (opts : CherryPickOpts)
    (hco : env.currentBranch = targetBranch ∨ env.checkoutOk targetBranch = true) :
    (cherryPickCommits true env commitHashes targetBranch opts).1.appliedCommits =
      commitHashes.takeWhile (fun h => (env.apply h).isOk) ∧
    ∀ pre h post st, commitHashes = pre ++ h :: post →
      (∀ g ∈ pre, (env.apply g).isOk = true) →
      env.apply h = .err st →
      (st.unstaged.isEmpty && st.staged.isEmpty) = false →
      (cherryPickCommits true env commitHashes targetBranch opts).1.success = false ∧
      (cherryPickCommits true env commitHashes targetBranch opts).1.conflicts =
        st.unstaged ++ st.staged ∧
      (cherryPickCommits true env commitHashes targetBranch opts).2.2 = pre ++ [h] := by
  have hnotco : ¬(env.currentBranch ≠ targetBranch ∧ env.checkoutOk targetBranch = false) := by
    rcases hco with h | h
    · exact fun hand => hand.1 h
    · exact fun hand => by rw [h] at hand; exact absurd hand.2 (by simp)
  constructor
  · unfold cherryPickCommits
    rw [if_neg (by simp)]
    simp only [if_neg hnotco]
    rw [← applyLoop_applied env.apply commitHashes]
    split
    · rfl
    · split
      · split <;> rfl
      · rfl
  · intro pre h post st heq hpre hh hcf
    have hloop := applyLoop_conflict env.apply pre h post st hpre hh hcf
    unfold cherryPickCommits
    rw [if_neg (by simp)]
    simp only [if_neg hnotco, heq, hloop]
    simp

theorem c1_witness :
    (cherryPickCommits true
        ⟨"t", fun _ => true, fun h => if h = "h2" then .err ⟨["a"], ["b"], []⟩ else .ok, true⟩
        ["h1", "h2", "h3"] "t" ⟨false, false⟩).1.appliedCommits = ["h1"] ∧
    (cherryPickCommits true
        ⟨"t", fun _ => true, fun h => if h = "h2" then .err ⟨["a"], ["b"], []⟩ else .ok, true⟩
        ["h1", "h2", "h3"] "t" ⟨false, false⟩).1.success = false ∧
    (cherryPickCommits true
        ⟨"t", fun _ => true, fun h => if h = "h2" then .err ⟨["a"], ["b"], []⟩ else .ok, true⟩
        ["h1", "h2", "h3"] "t" ⟨false, false⟩).1.conflicts = ["b", "a"] ∧
    (cherryPickCommits true
        ⟨"t", fun _ => true, fun h => if h = "h2" then .err ⟨["a"], ["b"], []⟩ else .ok, true⟩
        ["h1", "h2", "h3"] "t" ⟨false, false⟩).2.2 = ["h1", "h2"] := by
  have hmain := c1_cherry_pick_prefix_and_conflicts
    ⟨"t", fun _ => true, fun h => if h = "h2" then .err ⟨["a"], ["b"], []⟩ else .ok, true⟩
    ["h1", "h2", "h3"] "t" ⟨false, false⟩ (Or.inl rfl)
  have hconf := hmain.2 ["h1"] "h2" ["h3"] ⟨["a"], ["b"], []⟩ rfl
    (by decide) (by decide) (by decide)
  exact ⟨hmain.1.trans (by decide), hconf.1, hconf.2.1.trans (by decide),
    hconf.2.2.trans (by decide)⟩

/-- C4 counterexample: the claim says a failed checkout of the target
branch aborts with errorKind `BranchCheckoutFailed` and that no restore
checkout of the original branch is attempted.  With a backend whose
checkout always fails, `cherryPickCommits` records no error kind at all
(`errorType` stays unset) and still attempts the restore checkout, because
the restore step is guarded only by `currentBranch !== targetBranch`, not
by whether the switch actually happened. -/
theorem c4_counterexample :
    ¬ (((cherryPickCommits true ⟨"main", fun _ => false, fun _ => .ok, true⟩
          ["abc123"] "feature" ⟨false, false⟩).1.errorType = some "branch_error") ∧
       ((cherryPickCommits true ⟨"main", fun _ => false, fun _ => .ok, true⟩
          ["abc123"] "feature" ⟨false, false⟩).2.1 = false)) := by
  decide

/-- C4 amended: if the target branch differs from the current branch and
its checkout fails, the operation returns `success = false` with no commit
applied and no conflicts, but no errorKind is recorded (`errorType` is
never assigned), and the restore checkout of the original branch is still
attempted even though nothing was switched. -/
theorem c4_checkout_failure_behavior (env : CherryEnv) (commitHashes : List String)
    (targetBranch : String) (opts : CherryPickOpts)
    (hne : env.currentBranch ≠ targetBranch)
    (hco : env.checkoutOk targetBranch = false) :
    cherryPickCommits true env commitHashes targetBranch opts =
      (⟨false, [], [], none⟩, true, []) := by
  unfold cherryPickCommits
  rw [if_neg (by simp)]
  simp only [if_pos (And.intro hne hco)]
  simp [hne]

theorem c4_witness :
    cherryPickCommits true ⟨"main", fun _ => false, fun _ => .ok, true⟩
        ["abc123"] "feature" ⟨false, false⟩ =
      (⟨false, [], [], none⟩, true, []) :=
  c4_checkout_failure_behavior ⟨"main", fun _ => false, fun _ => .ok, true⟩
    ["abc123"] "feature" ⟨false, false⟩ (by decide) rfl

/-! ### C5: the repository scanner -/

/-- Every repository found while scanning a directory has a path at least
as long as that directory's path (descendants strictly longer). -/
theorem scan_path_length (branch : List String → Option String) :
    ∀ (n : Nat) (e : FSEntry), sizeOf e ≤ n →
      ∀ (q : List String) (r : Repo), r ∈ scanDirectoryForRepos branch q e →
        q.length ≤ r.path.length := by
  intro n
  induction n using Nat.strongRecOn with
  | ind n ih =>
    intro e he q r hr
    cases e with
    | file => simp [scanDirectoryForRepos] at hr
    | denied => simp [scanDirectoryForRepos] at hr
    | dir entries =>
      simp only [scanDirectoryForRepos, List.mem_append] at hr
      rcases hr with hr | hr
      · split at hr
        · split at hr
          · simp at hr; rw [hr]
          · simp at hr
        · simp at hr
      · rw [List.mem_flatten] at hr
        obtain ⟨l, hl, hrl⟩ := hr
        rw [List.mem_map] at hl
        obtain ⟨⟨⟨nm, e2⟩, hmem⟩, hatt, heq⟩ := hl
        subst heq
        dsimp only at hrl
        by_cases hh : jsStartsWith nm "." = true
        · simp [hh] at hrl
        · rw [if_neg (by simp [hh])] at hrl
          have h1 : (nm, e2) ∈ entries := List.take_subset 10 entries hmem
          have h2 : sizeOf (nm, e2) < sizeOf entries := List.sizeOf_lt_of_mem h1
          have h3 : sizeOf e2 < n := by
            have hs : 1 + sizeOf entries ≤ n := by simpa using he
            have hp : sizeOf (nm, e2) = 1 + sizeOf nm + sizeOf e2 := rfl
            omega
          have h4 := ih (sizeOf e2) h3 e2 le_rfl (q ++ [nm]) r hrl
          simp only [List.length_append, List.length_cons, List.length_nil] at h4
          omega

/-- C5 counterexample: the claim says a directory whose `.git` marker is
present but whose branch read fails is still recorded (with
`currentBranch` omitted).  Scanning such a directory yields no result at
all: the repository is dropped, matching the catch-block comment
"Not a valid git repo, skip". -/
theorem c5_counterexample :
    scanDirectoryForRepos (fun _ => none) ["root"] (.dir [(".git", .file)]) = [] := by
  simp [scanDirectoryForRepos]

/-- C5 amended: for a directory whose version-control marker is present,
a failure to read its current branch causes that directory's descriptor to
be omitted from the scan results entirely, and a descriptor for it (always
carrying the branch) is recorded exactly when the branch read succeeds. -/
theorem c5_branch_failure_skips (branch : List String → Option String)
    (p : List String) (entries : List (String × FSEntry))
    (hgit : ((entries.map (fun e => e.1)).contains ".git") = true) :
    (branch p = none →
      ∀ r ∈ scanDirectoryForRepos branch p (.dir entries), r.path ≠ p) ∧
    (∀ b, branch p = some b →
      (⟨p, basename p, some b⟩ : Repo) ∈ scanDirectoryForRepos branch p (.dir entries)) := by
  constructor
  · intro hb r hr hcontra
    simp only [scanDirectoryForRepos, hgit, hb, List.nil_append, if_true] at hr
    rw [List.mem_flatten] at hr
    obtain ⟨l, hl, hrl⟩ := hr
    rw [List.mem_map] at hl
    obtain ⟨⟨⟨nm, e2⟩, hmem⟩, hatt, heq⟩ := hl
    subst heq
    dsimp only at hrl
    by_cases hh : jsStartsWith nm "." = true
    · simp [hh] at hrl
    · rw [if_neg (by simp [hh])] at hrl
      have h4 := scan_path_length branch (sizeOf e2) e2 le_rfl (p ++ [nm]) r hrl
      rw [hcontra] at h4
      simp at h4
  · intro b hb
    simp only [scanDirectoryForRepos, hgit, hb, if_true]
    exact List.mem_append_left _ (by simp)

theorem c5_witness :
    (⟨["home", "proj"], "proj", some "main"⟩ : Repo) ∈
      scanDirectoryForRepos (fun _ => some "main") ["home", "proj"]
        (.dir [(".git", .file), ("src", .dir [])]) :=
  (c5_branch_failure_skips (fun _ => some "main") ["home", "proj"]
      [(".git", .file), ("src", .dir [])] (by decide)).2 "main" rfl

end Yagm
